import Mathlib

/-!
Verification development for the `releases-worker` service (`src/lib.rs`).

The file shallowly embeds the Rust source: the three route handlers
(`get_release`, `get_download`, `get_total_downloads`), the shared helper
`parse_releases`, the suffix matchers (`get_update_extension`,
`get_download_extension`) and the markdown sanitizer (`clean_markdown`),
together with executable models of the third-party interfaces the source
uses at its boundary: `chrono`'s RFC 3339 parsing/formatting and UNIX
timestamps, the `semver` crate's `Version::parse` and `Ord`, the `regex`
replacement passes of `clean_markdown`, `url::Url::parse` (at the level of
"absolute URL with a valid scheme"), and the Workers KV store (a key to
typed-value map; a `get` of a missing key yields `none`, a `get` of a value
of the wrong shape yields a decode error, mirroring `serde_json`).

Side effects are made explicit: each handler takes an environment (route
parameters, KV availability, the upstream fetch result, the signature fetch
function, the current wall-clock time) plus the current KV store contents,
and returns the accumulated KV writes together with an outcome that is
either an HTTP-level response or `crash` (a Rust panic, e.g. `unwrap` of
`None`).  Multiple reads of the wall clock inside one request are modelled
as a single instant.
-/

namespace ReleasesWorker

/-- Does `pat` occur as an initial segment of `l`?  Models Rust's
`str::starts_with` at the character level. -/
def startsWithL : List Char → List Char → Bool
  | [], _ => true
  | _ :: _, [] => false
  | p :: ps, c :: cs => p == c && startsWithL ps cs

/-- Does `pat` occur as a final segment of `l`?  Models Rust's
`str::ends_with` at the character level (an empty `pat` always matches). -/
def endsWithL (pat l : List Char) : Bool :=
  startsWithL pat.reverse l.reverse

/-- Rust `s.ends_with(pat)` on `String`s. -/
def strEndsWith (s pat : String) : Bool :=
  endsWithL pat.toList s.toList

/-- `struct GitHubAsset` from the source: one downloadable file of a
release.  `download_count` is an `i64` in Rust, modelled as `Int`. -/
structure GitHubAsset where
  name : String
  browser_download_url : String
  download_count : Int
deriving DecidableEq

/-- `struct GitHubRelease` from the source. -/
structure GitHubRelease where
  tag_name : String
  published_at : String
  body : String
  assets : List GitHubAsset
deriving DecidableEq

/-- `struct TotalDownloads` from the source (cached fact written under a
downloads key). -/
structure TotalDownloads where
  total_downloads : Int
  updated_at : String
deriving DecidableEq

/-- `struct RecentRelease` from the source (cached release snapshot plus the
resolved-update projection fields). -/
structure RecentRelease where
  version : String
  pub_date : String
  url : String
  signature : String
  notes : String
  releases : List GitHubRelease
  updated_at : String
deriving DecidableEq

/-- Rust `RecentRelease::default()`: empty strings, empty list. -/
def RecentRelease.defaultVal : RecentRelease :=
  ⟨"", "", "", "", "", [], ""⟩

/-- Rust `TotalDownloads::default()`: zero count, empty string. -/
def TotalDownloads.defaultVal : TotalDownloads :=
  ⟨0, ""⟩

/-- ASCII lowercase of one character. -/
def asciiLower (c : Char) : Char :=
  if 'A' ≤ c ∧ c ≤ 'Z' then Char.ofNat (c.toNat + 32) else c

/-- Model of Rust `str::to_lowercase` as ASCII lowercasing.  Rust performs
full Unicode lowercasing; the two agree on every ASCII string, and no
non-ASCII string can lowercase to one of the recognized target names
under either function (none of `mac`, `macos`, `darwin`, `linux`,
`windows` contains a letter, such as `k`, that is the Unicode lowercase of
a non-ASCII character), so the target classification below is unaffected. -/
def lowerStr (s : String) : String :=
  (s.toList.map asciiLower).asString

/-- `get_download_extension` from the source: installer suffix per target
(the `arch` parameter is accepted but unused).  The target is lowercased
first (`to_lowercase`). -/
def get_download_extension (target : String) (_arch : String) : String :=
  match lowerStr target with
  | "mac" => ".dmg"
  | "macos" => ".dmg"
  | "darwin" => ".dmg"
  | "linux" => ".AppImage"
  | "windows" => "-setup.exe"
  | _ => ""

/-- `get_update_extension` from the source: update-artifact and signature
suffixes per target (the `arch` parameter is accepted but unused). -/
def get_update_extension (target : String) (_arch : String) : String × String :=
  match lowerStr target with
  | "mac" => (".app.tar.gz", ".app.tar.gz.sig")
  | "macos" => (".app.tar.gz", ".app.tar.gz.sig")
  | "darwin" => (".app.tar.gz", ".app.tar.gz.sig")
  | "linux" => (".AppImage.tar.gz", ".AppImage.tar.gz.sig")
  | "windows" => (".nsis.zip", ".nsis.zip.sig")
  | _ => ("", "")

/-- A parsed date-time with fixed offset: the model of chrono's
`DateTime<FixedOffset>`.  Fields are kept (rather than a bare timestamp) so
that `to_rfc3339` can be modelled as well. -/
structure DateTime where
  year : Nat
  month : Nat
  day : Nat
  hour : Nat
  minute : Nat
  second : Nat
  nanos : Nat
  offsetSec : Int
deriving DecidableEq

/-- Value of an ASCII digit, `none` for any other character. -/
def digitVal? (c : Char) : Option Nat :=
  if '0' ≤ c ∧ c ≤ '9' then some (c.toNat - 48) else none

/-- Read exactly two ASCII digits. -/
def read2 : List Char → Option (Nat × List Char)
  | a :: b :: rest => do
    let x ← digitVal? a
    let y ← digitVal? b
    pure (10 * x + y, rest)
  | _ => none

/-- Read exactly four ASCII digits. -/
def read4 : List Char → Option (Nat × List Char)
  | a :: b :: c :: d :: rest => do
    let x ← digitVal? a
    let y ← digitVal? b
    let z ← digitVal? c
    let w ← digitVal? d
    pure (1000 * x + 100 * y + 10 * z + w, rest)
  | _ => none

/-- Consume one expected character. -/
def expectC (c : Char) : List Char → Option (List Char)
  | d :: rest => if d == c then some rest else none
  | [] => none

/-- Gregorian leap-year test. -/
def isLeap (y : Nat) : Bool :=
  y % 4 == 0 && (y % 100 != 0 || y % 400 == 0)

/-- Number of days of month `m` of year `y`. -/
def daysInMonth (y m : Nat) : Nat :=
  match m with
  | 1 => 31
  | 2 => if isLeap y then 29 else 28
  | 3 => 31
  | 4 => 30
  | 5 => 31
  | 6 => 30
  | 7 => 31
  | 8 => 31
  | 9 => 30
  | 10 => 31
  | 11 => 30
  | 12 => 31
  | _ => 0

/-- Is `c` an ASCII digit (Bool form)? -/
def isDigitB (c : Char) : Bool :=
  '0' ≤ c && c ≤ '9'

/-- Value of a digit string (most significant first). -/
def digitsToNat (ds : List Char) : Nat :=
  ds.foldl (fun acc c => 10 * acc + (c.toNat - 48)) 0

/-- Read an optional fractional-seconds part: a `.` must be followed by at
least one digit; the first nine digits are kept as nanoseconds, further
digits are consumed and discarded (chrono truncates sub-nanosecond
precision). -/
def readFrac : List Char → Option (Nat × List Char)
  | '.' :: rest =>
    let ds := rest.takeWhile isDigitB
    if ds.isEmpty then none
    else some (digitsToNat (ds.take 9) * 10 ^ (9 - min ds.length 9), rest.dropWhile isDigitB)
  | cs => some (0, cs)

/-- Read a mandatory RFC 3339 offset: `Z`/`z` or `±HH:MM`. -/
def readOffset : List Char → Option (Int × List Char)
  | 'Z' :: rest => some (0, rest)
  | 'z' :: rest => some (0, rest)
  | '+' :: rest => readOffsetHM rest 1
  | '-' :: rest => readOffsetHM rest (-1)
  | _ => none
where
  /-- Read the `HH:MM` payload of a numeric offset. -/
  readOffsetHM (cs : List Char) (sign : Int) : Option (Int × List Char) := do
    let (h, r) ← read2 cs
    let r ← expectC ':' r
    let (m, r) ← read2 r
    if h ≤ 23 ∧ m ≤ 59 then pure (sign * ((h : Int) * 3600 + (m : Int) * 60), r) else none

/-- Model of chrono's `DateTime::parse_from_rfc3339` on a character list:
`YYYY-MM-DD` then a `T`/`t`/space separator, `HH:MM:SS`, an optional
fraction, and a mandatory `Z` or `±HH:MM` offset, with the whole input
consumed.  Calendar fields are validated; leap seconds (second 60) are not
accepted by this model (no claim exercises them). -/
def parseRFC3339L (cs : List Char) : Option DateTime := do
  let (y, cs) ← read4 cs
  let cs ← expectC '-' cs
  let (mo, cs) ← read2 cs
  let cs ← expectC '-' cs
  let (d, cs) ← read2 cs
  let cs ← (match cs with
    | 'T' :: r => some r
    | 't' :: r => some r
    | ' ' :: r => some r
    | _ => none)
  let (h, cs) ← read2 cs
  let cs ← expectC ':' cs
  let (mi, cs) ← read2 cs
  let cs ← expectC ':' cs
  let (s, cs) ← read2 cs
  let (ns, cs) ← readFrac cs
  let (off, cs) ← readOffset cs
  if 1 ≤ mo ∧ mo ≤ 12 ∧ 1 ≤ d ∧ d ≤ daysInMonth y mo ∧ h ≤ 23 ∧ mi ≤ 59 ∧ s ≤ 59 ∧ cs = []
  then pure ⟨y, mo, d, h, mi, s, ns, off⟩
  else none

/-- Model of `DateTime::parse_from_rfc3339` on a `String`. -/
def parseRFC3339 (s : String) : Option DateTime :=
  parseRFC3339L s.toList

/-- Days since 1970-01-01 of a civil date (Howard Hinnant's algorithm, as
used by civil-time libraries; chrono agrees on the proleptic Gregorian
calendar). -/
def daysFromCivil (year : Int) (m d : Nat) : Int :=
  let y : Int := if m ≤ 2 then year - 1 else year
  let era : Int := (if 0 ≤ y then y else y - 399) / 400
  let yoe : Int := y - era * 400
  let doy : Int := (153 * ((m : Int) + (if 2 < m then -3 else 9)) + 2) / 5 + (d : Int) - 1
  let doe : Int := yoe * 365 + yoe / 4 - yoe / 100 + doy
  era * 146097 + doe - 719468

/-- Model of chrono's `.timestamp()`: UNIX seconds of the instant
(the fixed offset is subtracted; sub-second part is floored away). -/
def timestamp (dt : DateTime) : Int :=
  daysFromCivil (dt.year : Int) dt.month dt.day * 86400
    + (dt.hour : Int) * 3600 + (dt.minute : Int) * 60 + (dt.second : Int)
    - dt.offsetSec

/-- Two-digit zero-padded decimal. -/
def pad2 (n : Nat) : String :=
  (if n < 10 then "0" else "") ++ toString n

/-- Three-digit zero-padded decimal. -/
def pad3 (n : Nat) : String :=
  (if n < 10 then "00" else if n < 100 then "0" else "") ++ toString n

/-- Four-digit zero-padded decimal. -/
def pad4 (n : Nat) : String :=
  (if n < 10 then "000" else if n < 100 then "00" else if n < 1000 then "0" else "") ++ toString n

/-- Fractional-seconds rendering of chrono's `to_rfc3339` (`AutoSi`): empty
for zero, else 3, 6 or 9 digits depending on the finest nonzero unit. -/
def fracStr (ns : Nat) : String :=
  if ns == 0 then ""
  else if ns % 1000000 == 0 then "." ++ pad3 (ns / 1000000)
  else if ns % 1000 == 0 then "." ++ pad3 (ns / 1000000) ++ pad3 (ns / 1000 % 1000)
  else "." ++ pad3 (ns / 1000000) ++ pad3 (ns / 1000 % 1000) ++ pad3 (ns % 1000)

/-- Offset rendering of chrono's `to_rfc3339`: always numeric (`+00:00` for
UTC, never `Z`). -/
def offsetStr (off : Int) : String :=
  let a := off.natAbs
  (if off < 0 then "-" else "+") ++ pad2 (a / 3600) ++ ":" ++ pad2 (a % 3600 / 60)

/-- Model of chrono's `DateTime::to_rfc3339`. -/
def toRFC3339 (dt : DateTime) : String :=
  pad4 dt.year ++ "-" ++ pad2 dt.month ++ "-" ++ pad2 dt.day ++ "T"
    ++ pad2 dt.hour ++ ":" ++ pad2 dt.minute ++ ":" ++ pad2 dt.second
    ++ fracStr dt.nanos ++ offsetStr dt.offsetSec

/-- Remove every occurrence of the literal `pat` (leftmost-first,
non-overlapping), i.e. `Regex::replace_all` with an empty replacement for a
pattern with no metacharacters.  `fuel` bounds the recursion (one unit per
consumed character); callers pass the input length, which suffices. -/
def replaceLitAux (pat : List Char) : Nat → List Char → List Char
  | 0, cs => cs
  | _, [] => []
  | fuel + 1, c :: cs =>
    if startsWithL pat (c :: cs) then replaceLitAux pat fuel ((c :: cs).drop pat.length)
    else c :: replaceLitAux pat fuel cs

/-- Remove every occurrence of the literal `pat`. -/
def replaceLit (pat cs : List Char) : List Char :=
  replaceLitAux pat cs.length cs

/-- Pass of `header_re = (?m)^#+` replaced by the empty string: at the start
of the text and after each newline, a maximal run of `#` is removed.  The
Boolean tracks whether the scan position is at a line start. -/
def stripHeadersAux : Nat → Bool → List Char → List Char
  | 0, _, cs => cs
  | _, _, [] => []
  | fuel + 1, atStart, c :: cs =>
    if atStart && c == '#' then stripHeadersAux fuel false (cs.dropWhile (· == '#'))
    else c :: stripHeadersAux fuel (c == '\n') cs

/-- Pass of `header_re` over a whole text. -/
def stripHeaders (cs : List Char) : List Char :=
  stripHeadersAux cs.length true cs

/-- Find the first `**` in the input with no newline before it (the lazy
continuation of `\*\*(.*?)\*\*`): returns the characters before it and the
rest after it. -/
def findClose2 : List Char → Option (List Char × List Char)
  | [] => none
  | c :: cs =>
    if c == '\n' then none
    else if startsWithL ['*', '*'] (c :: cs) then some ([], cs.drop 1)
    else (findClose2 cs).map fun p => (c :: p.1, p.2)

/-- Pass of `bold_re = \*\*(.*?)\*\*` replaced by `$1`: leftmost-first,
non-overlapping; `.` does not match a newline; the replacement (the inner
text) is not rescanned. -/
def boldAux : Nat → List Char → List Char
  | 0, cs => cs
  | _, [] => []
  | fuel + 1, c :: cs =>
    if startsWithL ['*', '*'] (c :: cs) then
      match findClose2 (cs.drop 1) with
      | some (inner, rest) => inner ++ boldAux fuel rest
      | none => c :: boldAux fuel cs
    else c :: boldAux fuel cs

/-- Pass of `bold_re` over a whole text. -/
def boldPass (cs : List Char) : List Char :=
  boldAux cs.length cs

/-- Find the first occurrence of the one-character delimiter `d` with no
newline before it: the characters before it and the rest after it. -/
def findClose1 (d : Char) : List Char → Option (List Char × List Char)
  | [] => none
  | c :: cs =>
    if c == '\n' then none
    else if c == d then some ([], cs)
    else (findClose1 d cs).map fun p => (c :: p.1, p.2)

/-- Pass of `italic_re = _(.*?)_` replaced by `$1`. -/
def italicAux : Nat → List Char → List Char
  | 0, cs => cs
  | _, [] => []
  | fuel + 1, c :: cs =>
    if c == '_' then
      match findClose1 '_' cs with
      | some (inner, rest) => inner ++ italicAux fuel rest
      | none => c :: italicAux fuel cs
    else c :: italicAux fuel cs

/-- Pass of `italic_re` over a whole text. -/
def italicPass (cs : List Char) : List Char :=
  italicAux cs.length cs

/-- Find the first `)` with no newline before it (the lazy `.*?\)` of the
link pattern); returns the rest after it. -/
def findParen : List Char → Option (List Char)
  | [] => none
  | c :: cs => if c == '\n' then none else if c == ')' then some cs else findParen cs

/-- After an opening `[`, find the lazy match of `(.*?)\]\(.*?\)`: the label
runs to the first `](` that is followed by a `)` on the same line (a `](`
with no closing `)` is absorbed into the label, as regex backtracking
does); returns the label and the rest after the closing `)`. -/
def findLink : List Char → Option (List Char × List Char)
  | [] => none
  | c :: cs =>
    if c == '\n' then none
    else if c == ']' then
      match cs with
      | '(' :: cs2 =>
        match findParen cs2 with
        | some rest => some ([], rest)
        | none => (findLink cs).map fun p => (c :: p.1, p.2)
      | _ => (findLink cs).map fun p => (c :: p.1, p.2)
    else (findLink cs).map fun p => (c :: p.1, p.2)

/-- Pass of `link_re = \[(.*?)\]\(.*?\)` replaced by `$1`. -/
def linkAux : Nat → List Char → List Char
  | 0, cs => cs
  | _, [] => []
  | fuel + 1, c :: cs =>
    if c == '[' then
      match findLink cs with
      | some (label, rest) => label ++ linkAux fuel rest
      | none => c :: linkAux fuel cs
    else c :: linkAux fuel cs

/-- Pass of `link_re` over a whole text. -/
def linkPass (cs : List Char) : List Char :=
  linkAux cs.length cs

/-- The literal matched by `specific_text_re`: the boilerplate sentence in
its exact bold-plus-italic wrapping (every regex metacharacter in the
source pattern is escaped, so it is a literal). -/
def boilerplateLit : List Char :=
  "**_See the assets to download and install this version._**".toList

/-- The literal matched by `notes_re`. -/
def notesLit : List Char :=
  "### Notes".toList

/-- `clean_markdown` from the source: the six `replace_all` passes in
source order (boilerplate sentence, `### Notes`, heading markers, bold,
italic, links). -/
def clean_markdown (markdown : String) : String :=
  let no_specific_text := replaceLit boilerplateLit markdown.toList
  let no_notes := replaceLit notesLit no_specific_text
  let no_headers := stripHeaders no_notes
  let no_bold := boldPass no_headers
  let no_italic := italicPass no_bold
  let cleaned_text := linkPass no_italic
  cleaned_text.asString

/-- Character allowed in a semver prerelease/build identifier:
`[0-9A-Za-z-]`. -/
def isIdentChar (c : Char) : Bool :=
  c.isAlpha || isDigitB c || c == '-'

/-- One prerelease identifier of the `semver` crate: numeric identifiers
are compared by value, alphanumeric ones by ASCII order, and every numeric
identifier compares below every alphanumeric one. -/
inductive PreId where
  | num (n : Nat)
  | alpha (s : List Char)
deriving DecidableEq

/-- `semver::Version`: the parsed form of a version tag.  Numeric
components are `u64` in the crate; they are modelled as `Nat` (the crate
rejects values above `u64::MAX`, which this model accepts — no tag in any
claim comes near that bound). -/
structure SemVer where
  major : Nat
  minor : Nat
  patch : Nat
  pre : List PreId
  build : List (List Char)
deriving DecidableEq

/-- Parse one numeric version component: a nonempty digit run with no
leading zero (the crate rejects `01`). -/
def parseNumComp (cs : List Char) : Option (Nat × List Char) :=
  let ds := cs.takeWhile isDigitB
  if ds.isEmpty then none
  else if 1 < ds.length && ds.headD ' ' == '0' then none
  else some (digitsToNat ds, cs.dropWhile isDigitB)

/-- Parse one prerelease identifier: a nonempty run of identifier
characters; all-digit identifiers are numeric and must have no leading
zero (the crate rejects `1.0.0-01`), anything else is alphanumeric. -/
def parsePreId (cs : List Char) : Option (PreId × List Char) :=
  let ds := cs.takeWhile isIdentChar
  if ds.isEmpty then none
  else
    let rest := cs.dropWhile isIdentChar
    if ds.all isDigitB then
      if 1 < ds.length && ds.headD ' ' == '0' then none
      else some (.num (digitsToNat ds), rest)
    else some (.alpha ds, rest)

/-- Parse one build identifier: a nonempty run of identifier characters
(leading zeros are allowed in build metadata). -/
def parseBuildId (cs : List Char) : Option (List Char × List Char) :=
  let ds := cs.takeWhile isIdentChar
  if ds.isEmpty then none else some (ds, cs.dropWhile isIdentChar)

/-- Parse a nonempty dot-separated list of identifiers.  `fuel` bounds the
recursion; the input length suffices since every round consumes at least
one character. -/
def parseDotSep (parseId : List Char → Option (α × List Char)) :
    Nat → List Char → Option (List α × List Char)
  | 0, _ => none
  | fuel + 1, cs => do
    let (x, rest) ← parseId cs
    match rest with
    | '.' :: rest2 => do
      let (xs, rest3) ← parseDotSep parseId fuel rest2
      pure (x :: xs, rest3)
    | _ => pure ([x], rest)

/-- Model of `semver::Version::parse`: `MAJOR.MINOR.PATCH` with optional
`-PRERELEASE` and `+BUILD`, whole input consumed. -/
def parseSemVerL (cs : List Char) : Option SemVer := do
  let (majr, cs) ← parseNumComp cs
  let cs ← expectC '.' cs
  let (minr, cs) ← parseNumComp cs
  let cs ← expectC '.' cs
  let (ptch, cs) ← parseNumComp cs
  let (pre, cs) ← (match cs with
    | '-' :: rest => parseDotSep parsePreId (rest.length + 1) rest
    | _ => some ([], cs))
  let (build, cs) ← (match cs with
    | '+' :: rest => parseDotSep parseBuildId (rest.length + 1) rest
    | _ => some ([], cs))
  if cs = [] then pure ⟨majr, minr, ptch, pre, build⟩ else none

/-- Three-way comparison on `Nat` (the shape `compare` has on machine
integers in Rust). -/
def natCmp (a b : Nat) : Ordering :=
  if a < b then .lt else if a = b then .eq else .gt

/-- Three-way comparison on `Char` by code point (Rust compares identifier
bytes; identifiers here are ASCII, where the two agree). -/
def charCmp (a b : Char) : Ordering :=
  natCmp a.toNat b.toNat

/-- Lexicographic three-way comparison of lists: element-wise, a strict
initial segment compares below (Rust's `Ord` on slices/`str`). -/
def listCmp (cmp : α → α → Ordering) : List α → List α → Ordering
  | [], [] => .eq
  | [], _ :: _ => .lt
  | _ :: _, [] => .gt
  | x :: xs, y :: ys => (cmp x y).then (listCmp cmp xs ys)

/-- Comparison of two prerelease identifiers (`semver` crate): numeric
before alphanumeric, numeric by value, alphanumeric by ASCII order. -/
def preIdCmp : PreId → PreId → Ordering
  | .num a, .num b => natCmp a b
  | .num _, .alpha _ => .lt
  | .alpha _, .num _ => .gt
  | .alpha a, .alpha b => listCmp charCmp a b

/-- Comparison of prerelease lists (`Ord for Prerelease`): an absent
prerelease compares above any present one; otherwise identifier-wise with
a strict initial segment below. -/
def preListCmp : List PreId → List PreId → Ordering
  | [], [] => .eq
  | [], _ :: _ => .gt
  | _ :: _, [] => .lt
  | x :: xs, y :: ys => listCmp preIdCmp (x :: xs) (y :: ys)

/-- Comparison of two build identifiers (`Ord for BuildMetadata`):
all-digit identifiers compare numerically (length, then lexically — build
metadata may carry leading zeros) and below non-numeric ones; otherwise
ASCII order. -/
def buildIdCmp (a b : List Char) : Ordering :=
  match a.all isDigitB, b.all isDigitB with
  | true, true => (natCmp a.length b.length).then (listCmp charCmp a b)
  | true, false => .lt
  | false, true => .gt
  | false, false => listCmp charCmp a b

/-- Comparison of build-metadata lists: identifier-wise, a strict initial
segment (in particular absent metadata) below. -/
def buildListCmp : List (List Char) → List (List Char) → Ordering :=
  listCmp buildIdCmp

/-- `Ord for semver::Version`: major, then minor, then patch, then
prerelease, then build metadata. -/
def semverCmp (x y : SemVer) : Ordering :=
  (natCmp x.major y.major).then
    ((natCmp x.minor y.minor).then
      ((natCmp x.patch y.patch).then
        ((preListCmp x.pre y.pre).then (buildListCmp x.build y.build))))

/-- Version key of a release tag as the source computes it:
`Version::parse(tag.trim_start_matches('v')).unwrap_or(Version::new(0,0,0))`.
Note `trim_start_matches` removes every leading `v`, not just one. -/
def semverOfTag (tag : String) : SemVer :=
  (parseSemVerL (tag.toList.dropWhile (· == 'v'))).getD ⟨0, 0, 0, [], []⟩

/-- The comparator closure passed to `max_by` in both branches of
`get_download`. -/
def releaseCmp (a b : GitHubRelease) : Ordering :=
  semverCmp (semverOfTag a.tag_name) (semverOfTag b.tag_name)

/-- One folding step of Rust's `Iterator::max_by`: keep the accumulator
only when it compares strictly greater, otherwise take the new element —
so an equally-maximal later element replaces the earlier one. -/
def maxStep (cmp : α → α → Ordering) (acc y : α) : α :=
  if cmp acc y == .gt then acc else y

/-- Rust's `Iterator::max_by`: `none` on an empty iterator, otherwise a
left fold of `maxStep` — of several equally-maximal elements the LAST one
is returned. -/
def maxBy (cmp : α → α → Ordering) : List α → Option α
  | [] => none
  | x :: xs => some (xs.foldl (maxStep cmp) x)

/-- The latest-by-semver selection used by `get_download`. -/
def latestBySemver (releases : List GitHubRelease) : Option GitHubRelease :=
  maxBy releaseCmp releases

/-- A value stored in the Workers KV namespace: the program serializes
either a `RecentRelease` or a `TotalDownloads` as JSON. -/
inductive KVVal where
  | rel (r : RecentRelease)
  | tot (t : TotalDownloads)
deriving DecidableEq

/-- The KV store contents: a map from key to stored value. -/
def Store : Type :=
  String → Option KVVal

/-- `kv.get(key).json::<RecentRelease>()`: a missing key is `Ok(None)`
(absent, not an error); a stored value of the other shape fails to
deserialize, which is `Err`. -/
def kvGetRel (store : Store) (key : String) : Except Unit (Option RecentRelease) :=
  match store key with
  | none => .ok none
  | some (.rel r) => .ok (some r)
  | some (.tot _) => .error ()

/-- `kv.get(key).json::<TotalDownloads>()`, as `kvGetRel`. -/
def kvGetTot (store : Store) (key : String) : Except Unit (Option TotalDownloads) :=
  match store key with
  | none => .ok none
  | some (.tot t) => .ok (some t)
  | some (.rel _) => .error ()

/-- Result of the upstream `GET …/releases` call: transport failure,
undecodable body, or a release list. -/
inductive UpstreamResult where
  | sendErr
  | decodeErr
  | ok (releases : List GitHubRelease)
deriving DecidableEq

/-- Result of fetching a signature asset body. -/
inductive SigResult where
  | sendErr
  | textErr
  | ok (text : String)
deriving DecidableEq

/-- Everything one request run observes from its
surroundings.  Route parameters are `Option` (the code handles their
absence with a 400); `kvAvailable` models whether `ctx.kv(…)` succeeds;
`upstream` the single release-list fetch; `sigFetch` the signature fetch
by URL; `nowDT` the wall clock (`Utc::now()`, offset 0), a single instant
per request. -/
structure Env where
  target : Option String
  arch : Option String
  current_version : Option String
  kvAvailable : Bool
  upstream : UpstreamResult
  sigFetch : String → SigResult
  nowDT : DateTime

/-- An HTTP-level response as the handlers build them. -/
inductive Resp where
  | relJson (version pub_date url signature notes : String)
  | totJson (t : TotalDownloads)
  | error (msg : String) (status : Nat)
  | redirect (url : String)
deriving DecidableEq

/-- Either a response or a Rust panic (`unwrap` of `None`/`Err`, index out
of bounds). -/
inductive Outcome where
  | ok (r : Resp)
  | crash
deriving DecidableEq

/-- What one handler invocation does: the KV writes it performs, in order,
and its outcome. -/
structure HResult where
  writes : List (String × KVVal)
  outcome : Outcome
deriving DecidableEq

/-- Character allowed in a URL scheme after the first letter. -/
def isSchemeChar (c : Char) : Bool :=
  c.isAlpha || isDigitB c || c == '+' || c == '-' || c == '.'

/-- Model of `url::Url::parse` at the level the handlers use it: the string
must be an absolute URL, i.e. start with a valid scheme (`[A-Za-z]` then
scheme characters) followed by `:`; a relative string fails.  Parsing a
well-formed absolute `https://…` URL succeeds and the handlers only use
the URL for the redirect, so the URL is kept as the string itself. -/
def urlParse (s : String) : Option String :=
  match s.toList with
  | [] => none
  | c :: cs =>
    if c.isAlpha && (cs.dropWhile isSchemeChar).headD ' ' == ':' then some s else none

/-- Sum of every asset's `download_count` across a release list, exactly as
the source computes it (`flat_map` over assets, `map` to counts, `sum`). -/
def totalDownloadsOf (releases : List GitHubRelease) : Int :=
  (((releases.flatMap GitHubRelease.assets).map GitHubAsset.download_count)).sum

/-- The next-version selection inside `parse_releases`:
`releases.iter().find(|r| r.tag_name != current_version)`. -/
def nextRelease (releases : List GitHubRelease) (current_version : String) : Option GitHubRelease :=
  releases.find? fun release => release.tag_name != current_version

/-- `parse_releases` from the source: select the first release whose tag
differs from `current_version`, resolve the per-target suffixes, find the
update and signature assets, parse the publish date, fetch the signature
body, and build the `RecentRelease` result.  (The source also computes a
date from `published_at` with a fallback to now right after the suffix
check and discards it; that dead binding is omitted.)  Error strings are
the source's. -/
def parse_releases (releases : RecentRelease) (target arch current_version : String)
    (env : Env) : Except String RecentRelease :=
  match nextRelease releases.releases current_version with
  | none => .error "No new release found"
  | some latest_release =>
    let fe := get_update_extension target arch
    let file_extension := fe.1
    let sig_file_extension := fe.2
    if file_extension.isEmpty || sig_file_extension.isEmpty then .error "Invalid target"
    else
      match latest_release.assets.find? (fun asset => strEndsWith asset.name file_extension) with
      | none => .error "No update asset found"
      | some update_asset =>
        let download_url := update_asset.browser_download_url
        let new_version :=
          (latest_release.tag_name.toList.filter fun c => c.isDigit || c == '.').asString
        match parseRFC3339 latest_release.published_at with
        | none => .error "Failed to parse published date"
        | some pub_date =>
          let notes := latest_release.body
          match latest_release.assets.find? (fun asset => strEndsWith asset.name sig_file_extension) with
          | none => .error "No signature asset found"
          | some signature_asset =>
            match env.sigFetch signature_asset.browser_download_url with
            | .sendErr => .error "Failed to fetch signature"
            | .textErr => .error "Failed to parse signature"
            | .ok signature =>
              .ok { version := new_version
                    pub_date := toRFC3339 pub_date
                    url := download_url
                    signature := signature
                    notes := clean_markdown notes
                    releases := releases.releases
                    updated_at := toRFC3339 env.nowDT }

/-- The timestamp the freshness gates compare: the cached record's
`updated_at` parsed as RFC 3339, with the CURRENT time substituted when
parsing fails (`unwrap_or_else`/`Err(_) => now` in all three handlers). -/
def cachedTs (updated_at : String) (now : Int) : Int :=
  match parseRFC3339 updated_at with
  | some d => timestamp d
  | none => now

/-- The cached branch of `get_release` (gate true): run `parse_releases`
over the cached snapshot; a success is a 200 JSON response, ANY error is a
500 (`Response::error(err, 500)`). -/
def get_release_cached (env : Env) (old_release : RecentRelease)
    (target arch current_version : String) : HResult :=
  match parse_releases old_release target arch current_version env with
  | .ok r => ⟨[], .ok (.relJson r.version r.pub_date r.url r.signature r.notes)⟩
  | .error e => ⟨[], .ok (.error e 500)⟩

/-- The refresh branch of `get_release` (gate false): fetch the release
list, replace the snapshot's list, run `parse_releases`; on success write
the result — under key `"recent_download_count"` — and answer 200; any
`parse_releases` error is a 500. -/
def get_release_refresh (env : Env) (old_release : RecentRelease)
    (target arch current_version : String) : HResult :=
  match env.upstream with
  | .sendErr => ⟨[], .ok (.error "Failed to fetch releases" 500)⟩
  | .decodeErr => ⟨[], .ok (.error "Failed to parse releases" 500)⟩
  | .ok releases =>
    match parse_releases { old_release with releases := releases } target arch current_version env with
    | .ok r =>
      ⟨if env.kvAvailable then [("recent_download_count", KVVal.rel r)] else [],
        .ok (.relJson r.version r.pub_date r.url r.signature r.notes)⟩
    | .error e => ⟨[], .ok (.error e 500)⟩

/-- `get_release` after the KV read: the freshness gate
`updated_at.timestamp() + 300 > now` chooses between the cached branch and
the refresh branch. -/
def get_release_body (env : Env) (old_release : RecentRelease)
    (target arch current_version : String) : HResult :=
  let now := timestamp env.nowDT
  if cachedTs old_release.updated_at now + 300 > now then
    get_release_cached env old_release target arch current_version
  else
    get_release_refresh env old_release target arch current_version

/-- Handler of `GET /:target/:arch/:current_version`.  Missing route
parameters give 400.  With KV available the cached snapshot is read with
`kv.get("recent_release").json().await.unwrap().unwrap()` — a store error
OR A MISSING ENTRY panics; only an unavailable KV binding falls back to
`RecentRelease::default()`. -/
def get_release (env : Env) (store : Store) : HResult :=
  match env.target with
  | none => ⟨[], .ok (.error "Missing target" 400)⟩
  | some target =>
    match env.arch with
    | none => ⟨[], .ok (.error "Missing arch" 400)⟩
    | some arch =>
      match env.current_version with
      | none => ⟨[], .ok (.error "Missing current_version" 400)⟩
      | some current_version =>
        if env.kvAvailable then
          match kvGetRel store "recent_release" with
          | .error _ => ⟨[], .crash⟩
          | .ok none => ⟨[], .crash⟩
          | .ok (some old_release) => get_release_body env old_release target arch current_version
        else
          get_release_body env RecentRelease.defaultVal target arch current_version

/-- Refresh path of `get_total_downloads`: fetch the list (errors become
500 via `map_err(..)?`), sum the download counts, stamp with the FIRST
release's raw `published_at` string (`releases[0]` — a panic when the
upstream list is empty), write under `"recent_download_count"`, answer
200. -/
def get_total_downloads_refresh (env : Env) : HResult :=
  match env.upstream with
  | .sendErr => ⟨[], .ok (.error "Failed to fetch releases" 500)⟩
  | .decodeErr => ⟨[], .ok (.error "Failed to parse releases" 500)⟩
  | .ok releases =>
    let total_downloads := totalDownloadsOf releases
    match releases.head? with
    | none => ⟨[], .crash⟩
    | some r0 =>
      let new_downloads : TotalDownloads := ⟨total_downloads, r0.published_at⟩
      ⟨if env.kvAvailable then [("recent_download_count", KVVal.tot new_downloads)] else [],
        .ok (.totJson new_downloads)⟩

/-- `get_total_downloads` after the KV read: the gate compares the cached
record's `updated_at` (current time when absent or unparsable) against
now; a fresh PRESENT record is served, otherwise the refresh path runs. -/
def get_total_downloads_body (env : Env) (old_downloads : Option TotalDownloads) : HResult :=
  let now := timestamp env.nowDT
  let updatedTs :=
    match old_downloads with
    | some d => cachedTs d.updated_at now
    | none => now
  if updatedTs + 300 > now then
    match old_downloads with
    | some d => ⟨[], .ok (.totJson d)⟩
    | none => get_total_downloads_refresh env
  else
    get_total_downloads_refresh env

/-- Handler of `GET /total_downloads`.  The read is
`kv.get("recent_download_count").json().await.ok().unwrap()`: a store or
decode error panics (`.ok()` turns `Result` into `Option` and `.unwrap()`
fires), while a missing entry is a plain `None`. -/
def get_total_downloads (env : Env) (store : Store) : HResult :=
  if env.kvAvailable then
    match kvGetTot store "recent_download_count" with
    | .error _ => ⟨[], .crash⟩
    | .ok old_downloads => get_total_downloads_body env old_downloads
  else
    get_total_downloads_body env none

/-- Fresh branch of `get_download` (gate true): pick the max-by-semver
release from the CACHED snapshot, find the installer asset by suffix
(note: no emptiness check of the suffix — `ends_with("")` holds for every
asset), parse its URL, bump the cached total by one dated from
`releases[0]`'s publish time, write under `"recent_download_count"`, and
redirect. -/
def get_download_fresh (env : Env) (old_release : RecentRelease)
    (old_downloads : TotalDownloads) (file_extension : String) : HResult :=
  match latestBySemver old_release.releases with
  | none => ⟨[], .ok (.error "No new release found" 404)⟩
  | some latest_release =>
    match latest_release.assets.find? (fun asset => strEndsWith asset.name file_extension) with
    | none => ⟨[], .ok (.error "No asset found for target" 404)⟩
    | some asset =>
      match urlParse asset.browser_download_url with
      | none => ⟨[], .ok (.error "Invalid URL" 400)⟩
      | some download_url =>
        match old_release.releases.head? with
        | none => ⟨[], .crash⟩
        | some r0 =>
          match parseRFC3339 r0.published_at with
          | none => ⟨[], .ok (.error "Failed to parse published date" 500)⟩
          | some pd =>
            let new_downloads : TotalDownloads :=
              ⟨old_downloads.total_downloads + 1, toRFC3339 pd⟩
            ⟨if env.kvAvailable then [("recent_download_count", KVVal.tot new_downloads)] else [],
              .ok (.redirect download_url)⟩

/-- Refresh branch of `get_download` (gate false): fetch the release list,
pick max-by-semver FROM THE FETCHED LIST, match the asset, parse its URL,
then run `parse_releases` over the OLD cached snapshot with current
version `"0.0.0"` (errors become 500 via `?`), write it under
`"recent_releases"`, recompute the total from the old snapshot plus one,
write it under `"recent_total_downloads"`, write `"recent_releases"`
again, and redirect.  The first `"recent_releases"` write precedes the
publish-date parse, so it persists even when that parse then fails. -/
def get_download_refresh (env : Env) (old_release : RecentRelease)
    (target arch file_extension : String) : HResult :=
  match env.upstream with
  | .sendErr => ⟨[], .ok (.error "Failed to fetch releases" 500)⟩
  | .decodeErr => ⟨[], .ok (.error "Failed to parse releases" 500)⟩
  | .ok releases =>
    match latestBySemver releases with
    | none => ⟨[], .ok (.error "No new release found" 404)⟩
    | some latest_release =>
      match latest_release.assets.find? (fun asset => strEndsWith asset.name file_extension) with
      | none => ⟨[], .ok (.error "No asset found for target" 404)⟩
      | some asset =>
        match urlParse asset.browser_download_url with
        | none => ⟨[], .ok (.error "Invalid URL" 400)⟩
        | some download_url =>
          match parse_releases old_release target arch "0.0.0" env with
          | .error e => ⟨[], .ok (.error e 500)⟩
          | .ok new_release =>
            let w1 := if env.kvAvailable then [("recent_releases", KVVal.rel new_release)] else []
            let total_downloads := totalDownloadsOf new_release.releases
            match new_release.releases.head? with
            | none => ⟨w1, .crash⟩
            | some r0 =>
              match parseRFC3339 r0.published_at with
              | none => ⟨w1, .ok (.error "Failed to parse published date" 500)⟩
              | some pd =>
                let new_downloads : TotalDownloads := ⟨total_downloads + 1, toRFC3339 pd⟩
                let w2 := w1 ++ (if env.kvAvailable
                  then [("recent_total_downloads", KVVal.tot new_downloads)] else [])
                let w3 := w2 ++ (if env.kvAvailable
                  then [("recent_releases", KVVal.rel new_release)] else [])
                ⟨w3, .ok (.redirect download_url)⟩

/-- `get_download` after the two KV reads: the gate runs on the cached
DOWNLOADS record's `updated_at` and chooses fresh versus refresh; the
installer suffix is computed before the gate and used by both branches. -/
def get_download_body (env : Env) (old_release : RecentRelease)
    (old_downloads : TotalDownloads) (target arch : String) : HResult :=
  let now := timestamp env.nowDT
  let file_extension := get_download_extension target arch
  if cachedTs old_downloads.updated_at now + 300 > now then
    get_download_fresh env old_release old_downloads file_extension
  else
    get_download_refresh env old_release target arch file_extension

/-- Handler of `GET /download/:target/:arch`.  Missing parameters give
400.  With KV available it reads `"recent_releases"` and
`"recent_total_download"`, each with `.unwrap().unwrap()` — a store error
or a missing entry panics; an unavailable KV binding falls back to the
`Default` values. -/
def get_download (env : Env) (store : Store) : HResult :=
  match env.target with
  | none => ⟨[], .ok (.error "Missing target" 400)⟩
  | some target =>
    match env.arch with
    | none => ⟨[], .ok (.error "Missing arch" 400)⟩
    | some arch =>
      if env.kvAvailable then
        match kvGetRel store "recent_releases" with
        | .error _ => ⟨[], .crash⟩
        | .ok none => ⟨[], .crash⟩
        | .ok (some old_release) =>
          match kvGetTot store "recent_total_download" with
          | .error _ => ⟨[], .crash⟩
          | .ok none => ⟨[], .crash⟩
          | .ok (some old_downloads) => get_download_body env old_release old_downloads target arch
      else
        get_download_body env RecentRelease.defaultVal TotalDownloads.defaultVal target arch

/-- One inbound request: which handler runs and with which environment. -/
inductive Call where
  | release (env : Env)
  | download (env : Env)
  | totals (env : Env)

/-- `kv.put(key, v)` applied to the store contents. -/
def putVal (store : Store) (key : String) (v : KVVal) : Store :=
  fun k => if k = key then some v else store k

/-- Apply a handler's writes to the store, in order. -/
def applyWrites (store : Store) (ws : List (String × KVVal)) : Store :=
  ws.foldl (fun st kv => putVal st kv.1 kv.2) store

/-- The store after one request is handled. -/
def stepCall (store : Store) : Call → Store
  | .release env => applyWrites store (get_release env store).writes
  | .download env => applyWrites store (get_download env store).writes
  | .totals env => applyWrites store (get_total_downloads env store).writes

/-- The store after a sequence of requests. -/
def runCalls (store : Store) (calls : List Call) : Store :=
  calls.foldl stepCall store

/-- Laws making a three-way comparator a total preorder comparison:
swapping the arguments swaps the result, `≠ gt` (less-or-equivalent) is
transitive, and an `eq` left argument can be substituted. -/
structure CmpLaws (cmp : α → α → Ordering) : Prop where
  symm : ∀ x y, cmp y x = (cmp x y).swap
  le_trans : ∀ {x y z}, cmp x y ≠ .gt → cmp y z ≠ .gt → cmp x z ≠ .gt
  eq_left : ∀ {x y z}, cmp x y = .eq → cmp x z = cmp y z

/-- A signature fetch that always fails at transport (the concrete runs
below never reach it or are meant to show it is not consulted). -/
def noSigFetch : String → SigResult := fun _ => .sendErr

/-- A fixed instant: 2024-01-01T00:00:00Z. -/
def dtJan2024 : DateTime := ⟨2024, 1, 1, 0, 0, 0, 0, 0⟩

/-- A KV store holding exactly the given entries. -/
def storeOf (entries : List (String × KVVal)) : Store :=
  fun k => (entries.find? fun p => p.1 == k).map Prod.snd

/-- The empty KV store (every key absent). -/
def emptyStore : Store := fun _ => none

/-- An environment with all three route parameters present, KV available,
a failing upstream fetch, a failing signature fetch, and the fixed
instant as the wall clock. -/
def stdEnv (t a v : String) : Env :=
  ⟨some t, some a, some v, true, .sendErr, noSigFetch, dtJan2024⟩

/-- Cached snapshot with an UNPARSABLE `updated_at` and no releases. -/
def relC1 : RecentRelease := ⟨"", "", "", "", "", [], "not-a-date"⟩

/-- Store holding `relC1` under the key `get_release` reads. -/
def storeC1 : Store := storeOf [("recent_release", .rel relC1)]

/-- Request environment for the freshness-gate runs. -/
def envC1 : Env := stdEnv "windows" "x64" "v1.0.0"

/-- Cached snapshot whose only release's tag equals the requested current
version, with a fresh `updated_at` (same instant as the wall clock). -/
def relC4 : RecentRelease :=
  ⟨"", "", "", "", "", [⟨"v1.0.0", "2024-01-01T00:00:00Z", "", []⟩], "2024-01-01T00:00:00Z"⟩

/-- Store holding `relC4` under `"recent_release"`. -/
def storeC4 : Store := storeOf [("recent_release", .rel relC4)]

/-- Request environment for the status-taxonomy runs. -/
def envC4 : Env := stdEnv "windows" "x64" "v1.0.0"

/-- First of two releases with the same tag (distinct publish dates). -/
def relTieA : GitHubRelease := ⟨"v1.0.0", "2024-01-01T00:00:00Z", "", []⟩

/-- Second of two releases with the same tag. -/
def relTieB : GitHubRelease := ⟨"v1.0.0", "2024-02-02T00:00:00Z", "", []⟩

/-- A release whose tag carries a doubled `v`. -/
def relVV : GitHubRelease := ⟨"vv2.0.0", "", "", []⟩

/-- A plain `v1.0.0` release. -/
def relV1 : GitHubRelease := ⟨"v1.0.0", "", "", []⟩

/-- An asset whose name matches no real installer suffix. -/
def assetC7 : GitHubAsset := ⟨"README.txt", "https://example.com/README.txt", 5⟩

/-- A release holding only `assetC7`. -/
def relC7 : GitHubRelease := ⟨"v1.0.0", "2024-01-01T00:00:00Z", "", [assetC7]⟩

/-- Cached snapshot holding `relC7`. -/
def snapC7 : RecentRelease := ⟨"", "", "", "", "", [relC7], ""⟩

/-- Store with a fresh downloads record and the `snapC7` snapshot under
the keys `get_download` reads. -/
def storeC7 : Store :=
  storeOf [("recent_releases", .rel snapC7),
           ("recent_total_download", .tot ⟨10, "2024-01-01T00:00:00Z"⟩)]

/-- Request environment with the unrecognized target `freebsd`. -/
def envC7 : Env := stdEnv "freebsd" "x64" "v0.0.1"

/-- Update artifact asset of the round-trip run. -/
def assetRn : GitHubAsset := ⟨"app.nsis.zip", "https://e.com/app.nsis.zip", 2⟩

/-- Signature asset of the round-trip run. -/
def assetRs : GitHubAsset := ⟨"app.nsis.zip.sig", "https://e.com/app.nsis.zip.sig", 0⟩

/-- Installer asset of the round-trip run. -/
def assetRx : GitHubAsset := ⟨"app-setup.exe", "https://e.com/app-setup.exe", 7⟩

/-- The one release of the round-trip run. -/
def relR : GitHubRelease := ⟨"v1.0.0", "2024-01-01T00:00:00Z", "notes", [assetRn, assetRs, assetRx]⟩

/-- Cached snapshot seeded under `"recent_releases"`. -/
def snapR : RecentRelease := ⟨"", "", "", "", "", [relR], "2000-01-01T00:00:00Z"⟩

/-- Store with a STALE downloads record (year 2000 against a 2024 clock)
and the seeded snapshot, driving `get_download` into its refresh branch. -/
def storeR : Store :=
  storeOf [("recent_releases", .rel snapR),
           ("recent_total_download", .tot ⟨5, "2000-01-01T00:00:00Z"⟩)]

/-- Environment of the round-trip run: recognized target, KV available,
upstream delivering `relR`, signature fetch succeeding. -/
def envR : Env :=
  ⟨some "windows", some "x64", some "v9.9.9", true, .ok [relR],
    (fun u => if u == "https://e.com/app.nsis.zip.sig" then .ok "SIG" else .sendErr), dtJan2024⟩

/-- The snapshot value `get_download`'s refresh branch writes under
`"recent_releases"` in the round-trip run (the `parse_releases` result
over the cached list). -/
def snapR2 : RecentRelease :=
  ⟨"1.0.0", "2024-01-01T00:00:00+00:00", "https://e.com/app.nsis.zip", "SIG", "notes",
    [relR], "2024-01-01T00:00:00+00:00"⟩

/-- Swapping an `eq` comparison. -/
theorem CmpLaws.eq_symm {cmp : α → α → Ordering} (h : CmpLaws cmp) {x y : α}
    (hxy : cmp x y = .eq) : cmp y x = .eq := by
  rw [h.symm x y, hxy]; rfl

/-- `gt` one way is `lt` the other way. -/
theorem CmpLaws.gt_iff {cmp : α → α → Ordering} (h : CmpLaws cmp) {x y : α} :
    cmp x y = .gt ↔ cmp y x = .lt := by
  rw [h.symm x y]
  cases cmp x y <;> decide

/-- An `eq` right argument can be substituted. -/
theorem CmpLaws.eq_right {cmp : α → α → Ordering} (h : CmpLaws cmp) {x y : α}
    (hxy : cmp x y = .eq) (z : α) : cmp z x = cmp z y := by
  rw [h.symm x z, h.symm y z, h.eq_left hxy]

/-- Strictly-less composed with less-or-equivalent is strictly-less. -/
theorem CmpLaws.lt_le_trans {cmp : α → α → Ordering} (h : CmpLaws cmp) {x y z : α}
    (h1 : cmp x y = .lt) (h2 : cmp y z ≠ .gt) : cmp x z = .lt := by
  cases hxz : cmp x z with
  | lt => rfl
  | eq =>
    have hzy : cmp z y = .lt := by rw [← h.eq_left hxz]; exact h1
    have : cmp y z = .gt := by rw [h.symm z y, hzy]; rfl
    exact absurd this h2
  | gt =>
    have hzx : cmp z x = .lt := h.gt_iff.mp hxz
    have hzy : cmp z y ≠ .gt := h.le_trans (by rw [hzx]; decide) (by rw [h1]; decide)
    have hyz_eq : cmp y z = .eq := by
      cases hyz : cmp y z with
      | lt => exact absurd (h.gt_iff.mpr hyz) hzy
      | eq => rfl
      | gt => exact absurd hyz h2
    have h3 : cmp y x = cmp z x := h.eq_left hyz_eq
    have h4 : cmp y x = .gt := h.gt_iff.mpr h1
    rw [h4, hzx] at h3
    exact absurd h3 (by decide)

/-- Lexicographic composition of two lawful comparators over the same
arguments is lawful. -/
theorem thenCmpLaws {c1 c2 : α → α → Ordering} (h1 : CmpLaws c1) (h2 : CmpLaws c2) :
    CmpLaws (fun x y => (c1 x y).then (c2 x y)) := by
  constructor
  · intro x y
    show (c1 y x).then (c2 y x) = ((c1 x y).then (c2 x y)).swap
    rw [h1.symm x y, h2.symm x y]
    cases c1 x y <;> cases c2 x y <;> rfl
  · intro x y z hxy hyz
    simp only at hxy hyz ⊢
    cases e1 : c1 x y with
    | gt => rw [e1] at hxy; exact absurd rfl hxy
    | lt =>
      cases e2 : c1 y z with
      | gt => rw [e2] at hyz; exact absurd rfl hyz
      | lt =>
        have : c1 x z = .lt := h1.lt_le_trans e1 (by rw [e2]; decide)
        rw [this]; simp [Ordering.then]
      | eq =>
        have : c1 x y = c1 x z := h1.eq_right e2 x
        rw [← this, e1]; simp [Ordering.then]
    | eq =>
      rw [e1] at hxy; simp only [Ordering.then] at hxy
      cases e2 : c1 y z with
      | gt => rw [e2] at hyz; exact absurd rfl hyz
      | lt =>
        have : c1 x z = c1 y z := h1.eq_left e1
        rw [this, e2]; simp [Ordering.then]
      | eq =>
        rw [e2] at hyz; simp only [Ordering.then] at hyz
        have hc1 : c1 x z = .eq := by rw [h1.eq_left e1, e2]
        rw [hc1]; simp only [Ordering.then]
        exact h2.le_trans hxy hyz
  · intro x y z hxy
    simp only at hxy ⊢
    cases e1 : c1 x y with
    | lt => rw [e1] at hxy; simp [Ordering.then] at hxy
    | gt => rw [e1] at hxy; simp [Ordering.then] at hxy
    | eq =>
      rw [e1] at hxy; simp only [Ordering.then] at hxy
      rw [h1.eq_left e1, h2.eq_left hxy]

/-- A lawful comparator pulled back along a key function is lawful. -/
theorem comapCmpLaws {cmp : β → β → Ordering} (h : CmpLaws cmp) (f : α → β) :
    CmpLaws (fun x y => cmp (f x) (f y)) := by
  constructor
  · intro x y; exact h.symm (f x) (f y)
  · intro x y z h1 h2; exact h.le_trans h1 h2
  · intro x y z h1; exact h.eq_left h1

/-- `natCmp` is lawful. -/
theorem natCmpLaws : CmpLaws natCmp := by
  constructor
  · intro x y
    rcases Nat.lt_trichotomy x y with h | h | h
    · have h1 : ¬ y < x := by omega
      have h2 : ¬ y = x := by omega
      simp [natCmp, h, h1, h2, Ordering.swap]
    · subst h; simp [natCmp, Ordering.swap]
    · have h1 : ¬ x < y := by omega
      have h2 : ¬ x = y := by omega
      simp [natCmp, h, h1, h2, Ordering.swap]
  · intro x y z h1 h2
    unfold natCmp at h1 h2 ⊢
    split_ifs at h1 h2 ⊢ <;>
      first
        | decide
        | (exact absurd rfl h1)
        | (exact absurd rfl h2)
        | omega
  · intro x y z h1
    have hxy : x = y := by
      unfold natCmp at h1
      split_ifs at h1
      all_goals simp_all
    subst hxy; rfl

/-- `charCmp` is lawful. -/
theorem charCmpLaws : CmpLaws charCmp :=
  comapCmpLaws natCmpLaws Char.toNat

/-- Swap law of `listCmp`. -/
theorem listCmp_symm {cmp : α → α → Ordering} (h : CmpLaws cmp) :
    ∀ xs ys, listCmp cmp ys xs = (listCmp cmp xs ys).swap
  | [], [] => rfl
  | [], _ :: _ => rfl
  | _ :: _, [] => rfl
  | x :: xs, y :: ys => by
    show (cmp y x).then (listCmp cmp ys xs) = ((cmp x y).then (listCmp cmp xs ys)).swap
    rw [h.symm x y, listCmp_symm h xs ys]
    cases cmp x y <;> cases listCmp cmp xs ys <;> rfl

/-- Transitivity of `≠ gt` for `listCmp`. -/
theorem listCmp_le_trans {cmp : α → α → Ordering} (h : CmpLaws cmp) :
    ∀ xs ys zs, listCmp cmp xs ys ≠ .gt → listCmp cmp ys zs ≠ .gt →
      listCmp cmp xs zs ≠ .gt
  | [], _, [] => by intro _ _; simp [listCmp]
  | [], _, _ :: _ => by intro _ _; simp [listCmp]
  | _ :: _, [], _ => by intro h1 _; simp [listCmp] at h1
  | _ :: _, _ :: _, [] => by intro _ h2; simp [listCmp] at h2
  | x :: xs, y :: ys, z :: zs => by
    intro h1 h2
    simp only [listCmp] at h1 h2 ⊢
    cases e1 : cmp x y with
    | gt => rw [e1] at h1; simp [Ordering.then] at h1
    | lt =>
      cases e2 : cmp y z with
      | gt => rw [e2] at h2; simp [Ordering.then] at h2
      | lt =>
        have hxz : cmp x z = .lt := h.lt_le_trans e1 (by rw [e2]; decide)
        rw [hxz]; simp [Ordering.then]
      | eq =>
        have hxz : cmp x y = cmp x z := h.eq_right e2 x
        rw [← hxz, e1]; simp [Ordering.then]
    | eq =>
      rw [e1] at h1; simp only [Ordering.then] at h1
      cases e2 : cmp y z with
      | gt => rw [e2] at h2; simp [Ordering.then] at h2
      | lt =>
        have hxz : cmp x z = cmp y z := h.eq_left e1
        rw [hxz, e2]; simp [Ordering.then]
      | eq =>
        rw [e2] at h2; simp only [Ordering.then] at h2
        have hxz : cmp x z = .eq := by rw [h.eq_left e1, e2]
        rw [hxz]; simp only [Ordering.then]
        exact listCmp_le_trans h xs ys zs h1 h2

/-- Left substitution of `eq` for `listCmp`. -/
theorem listCmp_eq_left {cmp : α → α → Ordering} (h : CmpLaws cmp) :
    ∀ xs ys, listCmp cmp xs ys = .eq → ∀ zs, listCmp cmp xs zs = listCmp cmp ys zs
  | [], [], _ => fun _ => rfl
  | [], _ :: _, hxy => by simp [listCmp] at hxy
  | _ :: _, [], hxy => by simp [listCmp] at hxy
  | x :: xs, y :: ys, hxy => by
    intro zs
    simp only [listCmp] at hxy
    cases e1 : cmp x y with
    | lt => rw [e1] at hxy; simp [Ordering.then] at hxy
    | gt => rw [e1] at hxy; simp [Ordering.then] at hxy
    | eq =>
      rw [e1] at hxy; simp only [Ordering.then] at hxy
      cases zs with
      | nil => simp [listCmp]
      | cons z zs =>
        simp only [listCmp]
        rw [h.eq_left e1, listCmp_eq_left h xs ys hxy zs]

/-- `listCmp` of a lawful comparator is lawful. -/
theorem listCmpLaws {cmp : α → α → Ordering} (h : CmpLaws cmp) : CmpLaws (listCmp cmp) :=
  ⟨fun xs ys => listCmp_symm h xs ys,
   fun {xs ys zs} h1 h2 => listCmp_le_trans h xs ys zs h1 h2,
   fun {xs ys zs} h1 => listCmp_eq_left h xs ys h1 zs⟩

/-- `preIdCmp` is lawful. -/
theorem preIdCmpLaws : CmpLaws preIdCmp := by
  constructor
  · intro x y
    cases x with
    | num a =>
      cases y with
      | num b => exact natCmpLaws.symm a b
      | alpha t => rfl
    | alpha s =>
      cases y with
      | num b => rfl
      | alpha t => exact listCmp_symm charCmpLaws s t
  · intro x y z h1 h2
    cases x with
    | num a =>
      cases y with
      | num b =>
        cases z with
        | num c => exact natCmpLaws.le_trans h1 h2
        | alpha t => simp [preIdCmp]
      | alpha t =>
        cases z with
        | num c => exact absurd rfl h2
        | alpha u => simp [preIdCmp]
    | alpha s =>
      cases y with
      | num b => exact absurd rfl h1
      | alpha t =>
        cases z with
        | num c => exact absurd rfl h2
        | alpha u => exact listCmp_le_trans charCmpLaws s t u h1 h2
  · intro x y z h1
    cases x with
    | num a =>
      cases y with
      | num b =>
        cases z with
        | num c => exact natCmpLaws.eq_left h1
        | alpha t => rfl
      | alpha t => simp [preIdCmp] at h1
    | alpha s =>
      cases y with
      | num b => simp [preIdCmp] at h1
      | alpha t =>
        cases z with
        | num c => rfl
        | alpha u => exact listCmp_eq_left charCmpLaws s t h1 u

/-- `preListCmp` is lawful. -/
theorem preListCmpLaws : CmpLaws preListCmp := by
  constructor
  · intro p q
    cases p with
    | nil => cases q with
      | nil => rfl
      | cons y ys => rfl
    | cons x xs => cases q with
      | nil => rfl
      | cons y ys => exact listCmp_symm preIdCmpLaws (x :: xs) (y :: ys)
  · intro p q r h1 h2
    cases p with
    | nil =>
      cases q with
      | cons y ys => exact absurd rfl h1
      | nil =>
        cases r with
        | cons z zs => exact absurd rfl h2
        | nil => simp [preListCmp]
    | cons x xs =>
      cases r with
      | nil => simp [preListCmp]
      | cons z zs =>
        cases q with
        | nil => exact absurd rfl h2
        | cons y ys => exact listCmp_le_trans preIdCmpLaws (x :: xs) (y :: ys) (z :: zs) h1 h2
  · intro p q r h1
    cases p with
    | nil =>
      cases q with
      | nil => rfl
      | cons y ys => simp [preListCmp] at h1
    | cons x xs =>
      cases q with
      | nil => simp [preListCmp] at h1
      | cons y ys =>
        cases r with
        | nil => rfl
        | cons z zs => exact listCmp_eq_left preIdCmpLaws (x :: xs) (y :: ys) h1 (z :: zs)

/-- The numeric build-identifier comparator (length, then lexicographic)
is lawful. -/
theorem digitsCmpLaws :
    CmpLaws (fun a b : List Char => (natCmp a.length b.length).then (listCmp charCmp a b)) :=
  thenCmpLaws (comapCmpLaws natCmpLaws List.length) (listCmpLaws charCmpLaws)

/-- `buildIdCmp` is lawful. -/
theorem buildIdCmpLaws : CmpLaws buildIdCmp := by
  have dl := digitsCmpLaws
  constructor
  · intro x y
    cases hx : x.all isDigitB <;> cases hy : y.all isDigitB <;>
        simp only [buildIdCmp, hx, hy]
    · exact listCmp_symm charCmpLaws x y
    · rfl
    · rfl
    · exact dl.symm x y
  · intro x y z h1 h2
    cases hx : x.all isDigitB <;> cases hy : y.all isDigitB <;> cases hz : z.all isDigitB <;>
        simp only [buildIdCmp, hx, hy, hz] at h1 h2 ⊢ <;>
      first
        | exact dl.le_trans h1 h2
        | exact listCmp_le_trans charCmpLaws x y z h1 h2
        | exact absurd rfl h1
        | exact absurd rfl h2
        | decide
  · intro x y z h1
    cases hx : x.all isDigitB <;> cases hy : y.all isDigitB <;>
        simp only [buildIdCmp, hx, hy] at h1
    · cases hz : z.all isDigitB <;> simp only [buildIdCmp, hx, hy, hz]
      exact listCmp_eq_left charCmpLaws x y h1 z
    · exact absurd h1 (by decide)
    · exact absurd h1 (by decide)
    · cases hz : z.all isDigitB <;> simp only [buildIdCmp, hx, hy, hz]
      exact dl.eq_left h1

/-- `buildListCmp` is lawful. -/
theorem buildListCmpLaws : CmpLaws buildListCmp :=
  listCmpLaws buildIdCmpLaws

/-- `semverCmp` is lawful. -/
theorem semverCmpLaws : CmpLaws semverCmp := by
  have h5 : CmpLaws (fun x y : SemVer => buildListCmp x.build y.build) :=
    comapCmpLaws buildListCmpLaws SemVer.build
  have h4 : CmpLaws (fun x y : SemVer => preListCmp x.pre y.pre) :=
    comapCmpLaws preListCmpLaws SemVer.pre
  have h45 : CmpLaws (fun x y : SemVer =>
      (preListCmp x.pre y.pre).then (buildListCmp x.build y.build)) :=
    thenCmpLaws h4 h5
  have h3 : CmpLaws (fun x y : SemVer => natCmp x.patch y.patch) :=
    comapCmpLaws natCmpLaws SemVer.patch
  have h345 : CmpLaws (fun x y : SemVer =>
      (natCmp x.patch y.patch).then
        ((preListCmp x.pre y.pre).then (buildListCmp x.build y.build))) :=
    thenCmpLaws h3 h45
  have h2 : CmpLaws (fun x y : SemVer => natCmp x.minor y.minor) :=
    comapCmpLaws natCmpLaws SemVer.minor
  have h2345 : CmpLaws (fun x y : SemVer =>
      (natCmp x.minor y.minor).then
        ((natCmp x.patch y.patch).then
          ((preListCmp x.pre y.pre).then (buildListCmp x.build y.build)))) :=
    thenCmpLaws h2 h345
  have h1 : CmpLaws (fun x y : SemVer => natCmp x.major y.major) :=
    comapCmpLaws natCmpLaws SemVer.major
  exact thenCmpLaws h1 h2345

/-- `releaseCmp` is lawful. -/
theorem releaseCmpLaws : CmpLaws releaseCmp := by
  constructor
  · intro x y
    unfold releaseCmp
    exact semverCmpLaws.symm _ _
  · intro x y z hh1 hh2
    unfold releaseCmp at hh1 hh2 ⊢
    exact semverCmpLaws.le_trans hh1 hh2
  · intro x y z hh
    unfold releaseCmp at hh ⊢
    exact semverCmpLaws.eq_left hh

/-- `maxBy` yields `none` exactly on the empty list. -/
theorem maxBy_eq_none_iff (cmp : α → α → Ordering) (l : List α) :
    maxBy cmp l = none ↔ l = [] := by
  cases l <;> simp [maxBy]

/-- What the `maxStep` fold computes: either the accumulator survives and
dominates every element strictly, or the result is an element that the
accumulator and everything before it do not exceed and that strictly
dominates everything after it. -/
theorem foldl_maxStep_spec {cmp : α → α → Ordering} (h : CmpLaws cmp) :
    ∀ (xs : List α) (acc r : α), xs.foldl (maxStep cmp) acc = r →
      (r = acc ∧ ∀ x ∈ xs, cmp acc x = .gt) ∨
      (∃ l1 l2, xs = l1 ++ r :: l2 ∧ cmp acc r ≠ .gt ∧
        (∀ x ∈ l1, cmp x r ≠ .gt) ∧ (∀ x ∈ l2, cmp r x = .gt)) := by
  intro xs
  induction xs with
  | nil =>
    intro acc r hr
    left
    exact ⟨hr.symm, by simp⟩
  | cons y ys ih =>
    intro acc r hr
    rw [List.foldl_cons] at hr
    by_cases hgt : cmp acc y = .gt
    · have hstep : maxStep cmp acc y = acc := by unfold maxStep; rw [hgt]; rfl
      rw [hstep] at hr
      rcases ih acc r hr with ⟨he, hall⟩ | ⟨l1, l2, heq, hle, h1, h2⟩
      · left
        refine ⟨he, ?_⟩
        intro x hx
        rcases List.mem_cons.mp hx with rfl | hx
        · exact hgt
        · exact hall x hx
      · right
        refine ⟨y :: l1, l2, by simp [heq], hle, ?_, h2⟩
        intro x hx
        rcases List.mem_cons.mp hx with rfl | hx
        · have hlt : cmp x acc = .lt := h.gt_iff.mp hgt
          have : cmp x r = .lt := h.lt_le_trans hlt hle
          rw [this]; decide
        · exact h1 x hx
    · have hb : (cmp acc y == Ordering.gt) = false := by
        cases e : cmp acc y with
        | lt => rfl
        | eq => rfl
        | gt => exact absurd e hgt
      have hstep : maxStep cmp acc y = y := by unfold maxStep; rw [hb]; rfl
      rw [hstep] at hr
      rcases ih y r hr with ⟨he, hall⟩ | ⟨l1, l2, heq, hle, h1, h2⟩
      · right
        subst he
        exact ⟨[], ys, rfl, hgt, by simp, hall⟩
      · right
        refine ⟨y :: l1, l2, by simp [heq], h.le_trans hgt hle, ?_, h2⟩
        intro x hx
        rcases List.mem_cons.mp hx with rfl | hx
        · exact hle
        · exact h1 x hx

/-- `maxBy` of a lawful comparator returns the LAST maximal element: the
list splits around the result, nothing left of it (or the result itself)
exceeds it, and it strictly exceeds everything right of it. -/
theorem maxBy_spec {cmp : α → α → Ordering} (h : CmpLaws cmp) (l : List α) (m : α)
    (hm : maxBy cmp l = some m) :
    ∃ l1 l2, l = l1 ++ m :: l2 ∧ (∀ x ∈ l1, cmp x m ≠ .gt) ∧ (∀ x ∈ l2, cmp m x = .gt) := by
  cases l with
  | nil => simp [maxBy] at hm
  | cons x xs =>
    simp only [maxBy, Option.some.injEq] at hm
    rcases foldl_maxStep_spec h xs x m hm with ⟨he, hall⟩ | ⟨l1, l2, heq, hle, h1, h2⟩
    · refine ⟨[], xs, by rw [he]; rfl, by simp, ?_⟩
      intro x' hx'
      rw [he]
      exact hall x' hx'
    · refine ⟨x :: l1, l2, by simp [heq], ?_, h2⟩
      intro x' hx'
      rcases List.mem_cons.mp hx' with rfl | hx'
      · exact hle
      · exact h1 x' hx'

/-- C6 (amended): the latest-by-semver selection returns the release with
the numerically greatest semantic version after stripping leading `v`
characters from the tag, treating any tag that fails to parse as version
`0.0.0` (never discarding it), breaking ties by list order with the LAST
maximal element winning, and failing only when the list is empty: the list
splits as `l1 ++ m :: l2` where nothing in `l1` compares above `m` and `m`
compares strictly above everything in `l2`. -/
theorem latestBySemver_spec (releases : List GitHubRelease) :
    (latestBySemver releases = none ↔ releases = []) ∧
    ∀ m, latestBySemver releases = some m →
      ∃ l1 l2, releases = l1 ++ m :: l2 ∧
        (∀ x ∈ l1, releaseCmp x m ≠ .gt) ∧
        (∀ x ∈ l2, releaseCmp m x = .gt) := by
  refine ⟨maxBy_eq_none_iff releaseCmp releases, ?_⟩
  intro m hm
  exact maxBy_spec releaseCmpLaws releases m hm

/-- Witness: the selection theorem applied at a concrete singleton list. -/
theorem latestBySemver_spec_witness :
    ∃ l1 l2, [relV1] = l1 ++ relV1 :: l2 ∧
      (∀ x ∈ l1, releaseCmp x relV1 ≠ .gt) ∧
      (∀ x ∈ l2, releaseCmp relV1 x = .gt) :=
  (latestBySemver_spec [relV1]).2 relV1 (by decide)

/-- C6 counterexample: on two releases with the SAME tag the code returns
the SECOND one (Rust `max_by` keeps the last of equally-maximal elements),
not the first as the claim states; moreover `trim_start_matches('v')`
strips EVERY leading `v`, so tag `vv2.0.0` parses as `2.0.0` and beats
`v1.0.0`, whereas under the claim's "stripping a leading 'v'" it would be
unparsable (`v2.0.0`), count as `0.0.0`, and lose. -/
theorem latestBySemver_tie_counterexample :
    latestBySemver [relTieA, relTieB] = some relTieB ∧ relTieB ≠ relTieA ∧
    latestBySemver [relVV, relV1] = some relVV ∧
    semverOfTag "vv2.0.0" = ⟨2, 0, 0, [], []⟩ ∧
    parseSemVerL "v2.0.0".toList = none := by
  decide

/-- C10: `total_downloads` is the sum of every asset's `download_count`
across every release (release by release, with no deduplication), and is
zero on the empty list. -/
theorem totalDownloads_spec :
    (∀ releases : List GitHubRelease,
      totalDownloadsOf releases
        = (releases.map fun r => ((r.assets.map GitHubAsset.download_count).sum)).sum) ∧
    totalDownloadsOf [] = 0 := by
  constructor
  · intro releases
    induction releases with
    | nil => rfl
    | cons r rs ih =>
      simp only [totalDownloadsOf, List.flatMap_cons, List.map_append, List.sum_append,
        List.map_cons, List.sum_cons] at ih ⊢
      rw [ih]
  · rfl

/-- C5: the next-version selection returns the FIRST release in list order
whose tag is not exactly string-equal to the supplied current version and
nothing else is filtered (the list splits as `l1 ++ r :: l2` with every
tag in `l1` equal to the current version and `r`'s tag different), and
`parse_releases` fails with `No new release found` exactly when the list
is empty or every tag equals the current version. -/
theorem nextRelease_spec :
    (∀ (releases : List GitHubRelease) (current_version : String),
      (nextRelease releases current_version = none ↔
        ∀ r ∈ releases, r.tag_name = current_version) ∧
      (∀ r, nextRelease releases current_version = some r ↔
        ∃ l1 l2, releases = l1 ++ r :: l2 ∧
          (∀ x ∈ l1, x.tag_name = current_version) ∧ r.tag_name ≠ current_version)) ∧
    (∀ (snap : RecentRelease) (target arch current_version : String) (env : Env),
      parse_releases snap target arch current_version env = .error "No new release found" ↔
        nextRelease snap.releases current_version = none) := by
  constructor
  · intro releases cv
    induction releases with
    | nil =>
      constructor
      · simp [nextRelease]
      · intro r
        constructor
        · intro h; simp [nextRelease] at h
        · rintro ⟨l1, l2, heq, -, -⟩
          rcases l1 with - | ⟨b, l1⟩ <;> simp at heq
    | cons a l ih =>
      by_cases ha : a.tag_name = cv
      · have hb : ¬(a.tag_name != cv) = true := by simp [ha]
        have hc : nextRelease (a :: l) cv = nextRelease l cv :=
          List.find?_cons_of_neg l hb
        constructor
        · rw [hc]
          constructor
          · intro h r hr
            rcases List.mem_cons.mp hr with rfl | hr
            · exact ha
            · exact (ih.1.mp h) r hr
          · intro h
            exact ih.1.mpr fun r hr => h r (List.mem_cons_of_mem a hr)
        · intro r
          rw [hc]
          constructor
          · intro h
            rcases (ih.2 r).mp h with ⟨l1, l2, heq, h1, h2⟩
            refine ⟨a :: l1, l2, by rw [heq]; rfl, ?_, h2⟩
            intro x hx
            rcases List.mem_cons.mp hx with rfl | hx
            · exact ha
            · exact h1 x hx
          · rintro ⟨l1, l2, heq, h1, h2⟩
            rcases l1 with - | ⟨b, l1⟩
            · injection heq with h3 h4
              subst h3
              exact absurd ha h2
            · injection heq with h3 h4
              subst h3
              exact (ih.2 r).mpr
                ⟨l1, l2, h4, fun x hx => h1 x (List.mem_cons_of_mem _ hx), h2⟩
      · have hb : (a.tag_name != cv) = true := by simp [ha]
        have hc : nextRelease (a :: l) cv = some a :=
          List.find?_cons_of_pos l hb
        constructor
        · rw [hc]
          constructor
          · intro h; exact absurd h (by simp)
          · intro h; exact absurd (h a (List.mem_cons_self a l)) ha
        · intro r
          rw [hc]
          constructor
          · intro h
            injection h with h3
            subst h3
            exact ⟨[], l, rfl, by simp, ha⟩
          · rintro ⟨l1, l2, heq, h1, h2⟩
            rcases l1 with - | ⟨b, l1⟩
            · injection heq with h3 h4
              subst h3
              rfl
            · injection heq with h3 h4
              subst h3
              exact absurd (h1 a (List.mem_cons_self a l1)) ha
  · intro snap target arch cv env
    constructor
    · intro h
      cases hn : nextRelease snap.releases cv with
      | none => rfl
      | some r =>
        exfalso
        simp only [parse_releases, hn] at h
        repeat' split at h
        all_goals simp_all
    · intro h
      simp only [parse_releases, h]

/-- The cached branch of `get_release` writes nothing. -/
theorem get_release_cached_writes (env : Env) (old : RecentRelease) (t a v : String) :
    (get_release_cached env old t a v).writes = [] := by
  unfold get_release_cached
  split <;> rfl

/-- Every write of the refresh branch of `get_release` goes to
`"recent_download_count"`. -/
theorem get_release_refresh_writes (env : Env) (old : RecentRelease) (t a v : String) :
    ∀ p ∈ (get_release_refresh env old t a v).writes, p.1 = "recent_download_count" := by
  unfold get_release_refresh
  repeat' split
  all_goals intro p hp
  all_goals simp_all

/-- Every write of `get_release`'s gate body goes to
`"recent_download_count"`. -/
theorem get_release_body_writes (env : Env) (old : RecentRelease) (t a v : String) :
    ∀ p ∈ (get_release_body env old t a v).writes, p.1 = "recent_download_count" := by
  intro p hp
  unfold get_release_body at hp
  dsimp only at hp
  split at hp
  · rw [get_release_cached_writes] at hp
    simp at hp
  · exact get_release_refresh_writes env old t a v p hp

/-- Every write of `get_release` goes to `"recent_download_count"`. -/
theorem get_release_writes (env : Env) (store : Store) :
    ∀ p ∈ (get_release env store).writes, p.1 = "recent_download_count" := by
  intro p hp
  unfold get_release at hp
  repeat' split at hp
  all_goals first
    | simp at hp
    | exact get_release_body_writes _ _ _ _ _ p hp

/-- Every write of the `get_total_downloads` refresh path goes to
`"recent_download_count"`. -/
theorem get_total_downloads_refresh_writes (env : Env) :
    ∀ p ∈ (get_total_downloads_refresh env).writes, p.1 = "recent_download_count" := by
  unfold get_total_downloads_refresh
  repeat' split
  all_goals intro p hp
  all_goals simp_all

/-- Every write of `get_total_downloads` goes to
`"recent_download_count"`. -/
theorem get_total_downloads_writes (env : Env) (store : Store) :
    ∀ p ∈ (get_total_downloads env store).writes, p.1 = "recent_download_count" := by
  have hbody : ∀ od, ∀ p ∈ (get_total_downloads_body env od).writes,
      p.1 = "recent_download_count" := by
    intro od p hp
    unfold get_total_downloads_body at hp
    dsimp only at hp
    repeat' split at hp
    all_goals first
      | simp at hp
      | exact get_total_downloads_refresh_writes env p hp
  intro p hp
  unfold get_total_downloads at hp
  repeat' split at hp
  all_goals first
    | simp at hp
    | exact hbody _ p hp

/-- Every write of the fresh branch of `get_download` goes to
`"recent_download_count"`. -/
theorem get_download_fresh_writes (env : Env) (old : RecentRelease) (od : TotalDownloads)
    (fe : String) :
    ∀ p ∈ (get_download_fresh env old od fe).writes, p.1 = "recent_download_count" := by
  unfold get_download_fresh
  repeat' split
  all_goals intro p hp
  all_goals simp_all

/-- Every write of the refresh branch of `get_download` goes to
`"recent_releases"` or `"recent_total_downloads"`. -/
theorem get_download_refresh_writes (env : Env) (old : RecentRelease) (t a fe : String) :
    ∀ p ∈ (get_download_refresh env old t a fe).writes,
      p.1 = "recent_releases" ∨ p.1 = "recent_total_downloads" := by
  unfold get_download_refresh
  repeat' split
  all_goals intro p hp
  all_goals simp_all
  all_goals rcases hp with hp | hp | hp <;> simp_all

/-- Every write of `get_download` goes to one of the three refresh keys. -/
theorem get_download_writes (env : Env) (store : Store) :
    ∀ p ∈ (get_download env store).writes,
      p.1 = "recent_download_count" ∨ p.1 = "recent_releases" ∨
        p.1 = "recent_total_downloads" := by
  have hbody : ∀ old od t a, ∀ p ∈ (get_download_body env old od t a).writes,
      p.1 = "recent_download_count" ∨ p.1 = "recent_releases" ∨
        p.1 = "recent_total_downloads" := by
    intro old od t a p hp
    unfold get_download_body at hp
    dsimp only at hp
    split at hp
    · exact Or.inl (get_download_fresh_writes env old od _ p hp)
    · exact Or.inr (get_download_refresh_writes env old t a _ p hp)
  intro p hp
  unfold get_download at hp
  repeat' split at hp
  all_goals first
    | simp at hp
    | exact hbody _ _ _ _ p hp

/-- A fold of `putVal` over writes that all avoid key `k` leaves `k`'s
entry unchanged. -/
theorem applyWrites_ne (k : String) :
    ∀ (ws : List (String × KVVal)) (store : Store),
      (∀ p ∈ ws, p.1 ≠ k) → applyWrites store ws k = store k := by
  intro ws
  induction ws with
  | nil => intro store _; rfl
  | cons w ws ih =>
    intro store h
    unfold applyWrites at ih ⊢
    rw [List.foldl_cons]
    rw [ih (putVal store w.1 w.2) fun p hp => h p (List.mem_cons_of_mem w hp)]
    unfold putVal
    rw [if_neg]
    exact fun he => h w (List.mem_cons_self w ws) (he ▸ rfl)

/-- C3 (amended): over every sequence of handler invocations, no handler
ever writes the keys `"recent_release"` (read by `get_release` for its
cached snapshot) and `"recent_total_download"` (read by `get_download`
for its cached downloads record) — every refresh write goes to
`"recent_download_count"`, `"recent_releases"` and
`"recent_total_downloads"` — so those two entries still hold their
initial contents after any run and a read of THOSE keys never observes a
value this program wrote.  (This does not extend to `get_download`'s
other read key `"recent_releases"`, which its own refresh branch writes:
see the counterexample.) -/
theorem handlers_never_write_read_keys :
    ∀ (calls : List Call) (store : Store),
      runCalls store calls "recent_release" = store "recent_release" ∧
      runCalls store calls "recent_total_download" = store "recent_total_download" := by
  intro calls
  induction calls with
  | nil => intro store; exact ⟨rfl, rfl⟩
  | cons c cs ih =>
    intro store
    have hstep : ∀ k, k = "recent_release" ∨ k = "recent_total_download" →
        stepCall store c k = store k := by
      intro k hk
      cases c with
      | release env =>
        refine applyWrites_ne k _ store fun p hp => ?_
        have hw := get_release_writes env store p hp
        rcases hk with rfl | rfl <;> rw [hw] <;> decide
      | download env =>
        refine applyWrites_ne k _ store fun p hp => ?_
        have hw := get_download_writes env store p hp
        rcases hw with hw | hw | hw <;> rcases hk with rfl | rfl <;> rw [hw] <;> decide
      | totals env =>
        refine applyWrites_ne k _ store fun p hp => ?_
        have hw := get_total_downloads_writes env store p hp
        rcases hk with rfl | rfl <;> rw [hw] <;> decide
    have hrun : runCalls store (c :: cs) = runCalls (stepCall store c) cs := by
      unfold runCalls
      rw [List.foldl_cons]
    rw [hrun]
    rcases ih (stepCall store c) with ⟨ih1, ih2⟩
    exact ⟨ih1.trans (hstep _ (Or.inl rfl)), ih2.trans (hstep _ (Or.inr rfl))⟩

/-- C3 counterexample: the write-then-read round trip DOES complete for
`get_download`'s snapshot key `"recent_releases"`: on a stale-gated run
the handler's writes hit `"recent_releases"`, `"recent_total_downloads"`
and `"recent_releases"` again, the stored entry under `"recent_releases"`
changes, and the snapshot read of a subsequent `get_download` invocation
(`kv.get("recent_releases")`) yields exactly the value this program just
wrote — refuting the claim that no cache read in these handlers ever
observes a program write. -/
theorem getDownload_snapshot_roundtrip_counterexample :
    ((get_download envR storeR).writes.map Prod.fst)
      = ["recent_releases", "recent_total_downloads", "recent_releases"] ∧
    stepCall storeR (Call.download envR) "recent_releases" ≠ storeR "recent_releases" ∧
    kvGetRel (stepCall storeR (Call.download envR)) "recent_releases" = .ok (some snapR2) ∧
    ("recent_releases", KVVal.rel snapR2) ∈ (get_download envR storeR).writes ∧
    storeR "recent_releases" = some (.rel snapR) ∧ snapR2 ≠ snapR :=
  ⟨by decide, by decide, rfl, by decide, by decide, by decide⟩

/-- Errors of `get_release`'s cached branch carry status 500. -/
theorem get_release_cached_status (env : Env) (old : RecentRelease) (t a v : String) :
    ∀ m s, (get_release_cached env old t a v).outcome = .ok (.error m s) → s = 500 := by
  intro m s h
  unfold get_release_cached at h
  split at h
  · simp at h
  · simp at h
    exact h.2.symm

/-- Errors of `get_release`'s refresh branch carry status 500. -/
theorem get_release_refresh_status (env : Env) (old : RecentRelease) (t a v : String) :
    ∀ m s, (get_release_refresh env old t a v).outcome = .ok (.error m s) → s = 500 := by
  intro m s h
  unfold get_release_refresh at h
  repeat' split at h
  all_goals simp_all

/-- Errors of `get_release`'s gate body carry status 500. -/
theorem get_release_body_status (env : Env) (old : RecentRelease) (t a v : String) :
    ∀ m s, (get_release_body env old t a v).outcome = .ok (.error m s) → s = 500 := by
  intro m s h
  unfold get_release_body at h
  dsimp only at h
  split at h
  · exact get_release_cached_status env old t a v m s h
  · exact get_release_refresh_status env old t a v m s h

/-- C4 (amended): the version-check endpoint returns 400 exactly for a
missing path parameter; with all three parameters present, EVERY error
response — no new release, invalid target, missing update or signature
asset, signature fetch or parse failure, unparsable publish date, and
upstream fetch or parse failure alike — carries status 500; 404 is never
produced. -/
theorem getRelease_status_amended (env : Env) (store : Store) :
    (env.target = none →
      get_release env store = ⟨[], .ok (.error "Missing target" 400)⟩) ∧
    (env.target ≠ none ∧ env.arch ≠ none ∧ env.current_version ≠ none →
      ∀ m s, (get_release env store).outcome = .ok (.error m s) → s = 500) := by
  constructor
  · intro h
    unfold get_release
    rw [h]
  · rintro ⟨ht, ha, hv⟩ m s h
    rcases he : env.target with - | t
    · exact absurd he ht
    rcases hea : env.arch with - | a
    · exact absurd hea ha
    rcases hev : env.current_version with - | v
    · exact absurd hev hv
    unfold get_release at h
    rw [he, hea, hev] at h
    repeat' split at h
    all_goals first
      | exact get_release_body_status env _ _ _ _ m s h
      | (exfalso; simp_all)

/-- Witness: the taxonomy theorem applied at a concrete missing-target
request and at the concrete equal-tag request. -/
theorem getRelease_status_amended_witness :
    get_release (⟨none, some "x64", some "v1.0.0", true, .sendErr, noSigFetch, dtJan2024⟩ : Env)
        emptyStore = ⟨[], .ok (.error "Missing target" 400)⟩ ∧
    (500 : Nat) = 500 := by
  constructor
  · exact (getRelease_status_amended _ emptyStore).1 rfl
  · exact (getRelease_status_amended envC4 storeC4).2 (by decide)
      "No new release found" 500 (by decide)

/-- C4 counterexample: a request whose current version equals the only
cached release's tag is answered `No new release found` WITH STATUS 500 —
not 404 as the claim states. -/
theorem getRelease_noNewRelease_500_counterexample :
    (get_release envC4 storeC4).outcome = .ok (.error "No new release found" 500) ∧
    (get_release envC4 storeC4).outcome ≠ .ok (.error "No new release found" 404) := by
  decide

/-- C1 (amended): the cache-freshness gate is the boolean
`captured_at + 300 > now` whenever `captured_at` parses; when it does NOT
parse, the code substitutes the current time for `captured_at`, so the
gate is true and `get_release` takes the cached branch (serving the cached
value) instead of refreshing from upstream. -/
theorem cacheGate_spec :
    (∀ (s : String) (now : Int) (d : DateTime),
      parseRFC3339 s = some d → cachedTs s now = timestamp d) ∧
    (∀ (s : String) (now : Int), parseRFC3339 s = none → cachedTs s now = now) ∧
    (∀ (env : Env) (old : RecentRelease) (t a v : String),
      parseRFC3339 old.updated_at = none →
        get_release_body env old t a v = get_release_cached env old t a v) := by
  refine ⟨?_, ?_, ?_⟩
  · intro s now d h
    unfold cachedTs
    rw [h]
  · intro s now h
    unfold cachedTs
    rw [h]
  · intro env old t a v h
    unfold get_release_body
    dsimp only
    have h1 : cachedTs old.updated_at (timestamp env.nowDT) = timestamp env.nowDT := by
      unfold cachedTs
      rw [h]
    rw [h1, if_pos (by omega)]

/-- Witness: the gate theorem applied at a concrete unparsable timestamp
and at the concrete cached snapshot `relC1`. -/
theorem cacheGate_spec_witness :
    cachedTs "not-a-date" 0 = 0 ∧
    get_release_body envC1 relC1 "windows" "x64" "v1.0.0"
      = get_release_cached envC1 relC1 "windows" "x64" "v1.0.0" :=
  ⟨cacheGate_spec.2.1 "not-a-date" 0 (by decide),
   cacheGate_spec.2.2 envC1 relC1 "windows" "x64" "v1.0.0" (by decide)⟩

/-- C1 counterexample: a cached record whose `captured_at` is unparsable
is treated as FRESH, not stale: with the upstream fetch failing,
`get_release` still answers from the cached branch (the cache-path error
`No new release found` on the empty cached list) rather than attempting —
and failing — a refresh (`Failed to fetch releases`). -/
theorem cacheGate_unparsable_counterexample :
    parseRFC3339 relC1.updated_at = none ∧
    envC1.upstream = UpstreamResult.sendErr ∧
    get_release envC1 storeC1 = ⟨[], .ok (.error "No new release found" 500)⟩ ∧
    get_release envC1 storeC1 ≠ ⟨[], .ok (.error "Failed to fetch releases" 500)⟩ := by
  decide

/-- C2: the KV store itself yields absent (`Ok(None)`) for a missing key,
but `get_release` then panics (`.unwrap()` of `None`) instead of treating
the absent entry as stale and refreshing: on an empty store (e.g. the very
first request) the request crashes. -/
theorem getRelease_missing_cache_crashes :
    kvGetRel emptyStore "recent_release" = .ok none ∧
    (get_release envC1 emptyStore).outcome = .crash :=
  ⟨rfl, by decide⟩

/-- C7: for the unrecognized target `freebsd` both suffix functions return
empty suffixes, and `parse_releases` (the version-check path) does reject
the empty suffix as `Invalid target`; but `get_download` performs no such
check: Rust's `ends_with("")` holds for every asset name, so the empty
install suffix matches the FIRST asset of the latest cached release and
the handler redirects to it — here a `README.txt` — instead of failing. -/
theorem getDownload_empty_suffix_matches_first_asset :
    get_update_extension "freebsd" "x64" = ("", "") ∧
    get_download_extension "freebsd" "x64" = "" ∧
    strEndsWith "README.txt" "" = true ∧
    parse_releases snapC7 "freebsd" "x64" "v0.0.1" envC7 = .error "Invalid target" ∧
    (get_download envC7 storeC7).outcome = .ok (.redirect "https://example.com/README.txt") := by
  refine ⟨by decide, by decide, rfl, rfl, by decide⟩

/-- A literal-removal pass whose pattern starts with a character absent
from the text changes nothing. -/
theorem replaceLitAux_id (p : Char) (ps : List Char) :
    ∀ (fuel : Nat) (cs : List Char), (∀ c ∈ cs, c ≠ p) →
      replaceLitAux (p :: ps) fuel cs = cs := by
  intro fuel
  induction fuel with
  | zero => intro cs _; cases cs <;> rfl
  | succ n ih =>
    intro cs h
    cases cs with
    | nil => rfl
    | cons c cs' =>
      have hc : c ≠ p := h c (List.mem_cons_self c cs')
      have hsw : startsWithL (p :: ps) (c :: cs') = false := by
        cases hpc : (p == c) with
        | true => exact absurd (eq_of_beq hpc).symm hc
        | false =>
          unfold startsWithL
          rw [hpc, Bool.false_and]
      unfold replaceLitAux
      rw [hsw, if_neg (by decide)]
      rw [ih cs' fun d hd => h d (List.mem_cons_of_mem c hd)]

/-- The heading pass changes nothing on text with no `#`. -/
theorem stripHeadersAux_id :
    ∀ (fuel : Nat) (atStart : Bool) (cs : List Char), (∀ c ∈ cs, c ≠ '#') →
      stripHeadersAux fuel atStart cs = cs := by
  intro fuel
  induction fuel with
  | zero => intro _ cs _; cases cs <;> rfl
  | succ n ih =>
    intro atStart cs h
    cases cs with
    | nil => rfl
    | cons c cs' =>
      have hc : c ≠ '#' := h c (List.mem_cons_self c cs')
      have hcond : (atStart && c == '#') = false := by
        have hpcf : (c == '#') = false := by
          cases hpc : (c == '#') with
          | true => exact absurd (eq_of_beq hpc) hc
          | false => rfl
        rw [hpcf, Bool.and_false]
      unfold stripHeadersAux
      rw [hcond, if_neg (by decide)]
      rw [ih (c == '\n') cs' fun d hd => h d (List.mem_cons_of_mem c hd)]

/-- The bold pass changes nothing on text with no `*`. -/
theorem boldAux_id :
    ∀ (fuel : Nat) (cs : List Char), (∀ c ∈ cs, c ≠ '*') → boldAux fuel cs = cs := by
  intro fuel
  induction fuel with
  | zero => intro cs _; cases cs <;> rfl
  | succ n ih =>
    intro cs h
    cases cs with
    | nil => rfl
    | cons c cs' =>
      have hc : c ≠ '*' := h c (List.mem_cons_self c cs')
      have hsw : startsWithL ['*', '*'] (c :: cs') = false := by
        cases hpc : ('*' == c) with
        | true => exact absurd (eq_of_beq hpc).symm hc
        | false =>
          unfold startsWithL
          rw [hpc, Bool.false_and]
      unfold boldAux
      rw [hsw, if_neg (by decide)]
      rw [ih cs' fun d hd => h d (List.mem_cons_of_mem c hd)]

/-- The italic pass changes nothing on text with no `_`. -/
theorem italicAux_id :
    ∀ (fuel : Nat) (cs : List Char), (∀ c ∈ cs, c ≠ '_') → italicAux fuel cs = cs := by
  intro fuel
  induction fuel with
  | zero => intro cs _; cases cs <;> rfl
  | succ n ih =>
    intro cs h
    cases cs with
    | nil => rfl
    | cons c cs' =>
      have hc : c ≠ '_' := h c (List.mem_cons_self c cs')
      have hcond : (c == '_') = false := by
        cases hpc : (c == '_') with
        | true => exact absurd (eq_of_beq hpc) hc
        | false => rfl
      unfold italicAux
      rw [hcond, if_neg (by decide)]
      rw [ih cs' fun d hd => h d (List.mem_cons_of_mem c hd)]

/-- The link pass changes nothing on text with no `[`. -/
theorem linkAux_id :
    ∀ (fuel : Nat) (cs : List Char), (∀ c ∈ cs, c ≠ '[') → linkAux fuel cs = cs := by
  intro fuel
  induction fuel with
  | zero => intro cs _; cases cs <;> rfl
  | succ n ih =>
    intro cs h
    cases cs with
    | nil => rfl
    | cons c cs' =>
      have hc : c ≠ '[' := h c (List.mem_cons_self c cs')
      have hcond : (c == '[') = false := by
        cases hpc : (c == '[') with
        | true => exact absurd (eq_of_beq hpc) hc
        | false => rfl
      unfold linkAux
      rw [hcond, if_neg (by decide)]
      rw [ih cs' fun d hd => h d (List.mem_cons_of_mem c hd)]

/-- C8 (amended): the sanitizer is the identity — hence idempotent — on
every input containing none of the marker characters `#`, `*`, `_`, `[`;
it is NOT idempotent on arbitrary markdown (see the counterexample, where
a link label starting with `#` surfaces a fresh heading marker that only a
second pass strips). -/
theorem clean_markdown_idempotent_on_plain :
    ∀ s : String, (∀ c ∈ s.toList, c ≠ '#' ∧ c ≠ '*' ∧ c ≠ '_' ∧ c ≠ '[') →
      clean_markdown s = s ∧ clean_markdown (clean_markdown s) = clean_markdown s := by
  have hid : ∀ s : String, (∀ c ∈ s.toList, c ≠ '#' ∧ c ≠ '*' ∧ c ≠ '_' ∧ c ≠ '[') →
      clean_markdown s = s := by
    intro s h
    unfold clean_markdown
    dsimp only
    have h1 : replaceLit boilerplateLit s.toList = s.toList := by
      have hb : boilerplateLit = '*' :: boilerplateLit.tail := by decide
      rw [hb]
      exact replaceLitAux_id '*' _ _ _ fun c hc => (h c hc).2.1
    have h2 : replaceLit notesLit s.toList = s.toList := by
      have hb : notesLit = '#' :: notesLit.tail := by decide
      rw [hb]
      exact replaceLitAux_id '#' _ _ _ fun c hc => (h c hc).1
    have h3 : stripHeaders s.toList = s.toList :=
      stripHeadersAux_id _ true _ fun c hc => (h c hc).1
    have h4 : boldPass s.toList = s.toList :=
      boldAux_id _ _ fun c hc => (h c hc).2.1
    have h5 : italicPass s.toList = s.toList :=
      italicAux_id _ _ fun c hc => (h c hc).2.2.1
    have h6 : linkPass s.toList = s.toList :=
      linkAux_id _ _ fun c hc => (h c hc).2.2.2
    rw [h1, h2, h3, h4, h5, h6]
    rfl
  intro s h
  refine ⟨hid s h, ?_⟩
  rw [hid s h]
  exact hid s h

/-- Witness: identity and idempotence of the sanitizer at a concrete
marker-free string. -/
theorem clean_markdown_idempotent_on_plain_witness :
    clean_markdown "Fixed two bugs." = "Fixed two bugs." ∧
    clean_markdown (clean_markdown "Fixed two bugs.") = clean_markdown "Fixed two bugs." :=
  clean_markdown_idempotent_on_plain "Fixed two bugs." (by decide)

/-- C8 counterexample: `sanitize(sanitize(x)) ≠ sanitize(x)` for
`x = "[#a](b)"` — the first pass rewrites the link to its label `#a`,
whose `#` now sits at a line start, and the second pass strips it. -/
theorem clean_markdown_not_idempotent :
    clean_markdown "[#a](b)" = "#a" ∧
    clean_markdown (clean_markdown "[#a](b)") = "a" ∧
    clean_markdown (clean_markdown "[#a](b)") ≠ clean_markdown "[#a](b)" := by
  decide

/-- C9 (amended): the sanitizer's first step removes the boilerplate
sentence only in its exactly-wrapped form
`**_See the assets to download and install this version._**` (also inside
surrounding text); a bare occurrence with no emphasis markers is left in
place in full. -/
theorem clean_markdown_boilerplate_exact_form :
    clean_markdown "**_See the assets to download and install this version._**" = "" ∧
    clean_markdown
        "Notes:\n**_See the assets to download and install this version._**\nBug fixes."
      = "Notes:\n\nBug fixes." ∧
    clean_markdown "See the assets to download and install this version."
      = "See the assets to download and install this version." := by
  decide

/-- C9 counterexample: the bare boilerplate sentence, with no emphasis
markup at all, passes through the sanitizer untouched — it is NOT removed
as the claim states. -/
theorem clean_markdown_bare_sentence_kept :
    clean_markdown "See the assets to download and install this version."
      = "See the assets to download and install this version." ∧
    "See the assets to download and install this version." ≠ "" := by
  decide

end ReleasesWorker
